import Mathlib

/-!
Verification of the QuizGenius quiz pipeline (src/app.py) in a shallow
embedding. Pure functions of the source become Lean functions; the global
random stream, the remote database, the remote model and the filesystem
become explicit parameters (oracles and state values); Python reference
semantics of the option lists, where it matters, is modelled by an explicit
heap of list cells.
-/

namespace Quiz

/-- The Option record of app.py: one answer option of a quiz question. -/
structure Option where
  text : String
  correct : Bool
deriving DecidableEq, Repr

end Quiz

/-- The QuizQuestion record of app.py. The Python metadata dict (string keys)
is modelled as an association list of string keys to string values. -/
structure QuizQuestion where
  question : String
  options : List Quiz.Option
  news_context : String
  tags : List String
  metadata : List (String × String)
deriving DecidableEq, Repr

/-- The QuizQuestionList record of app.py. -/
structure QuizQuestionList where
  questions : List QuizQuestion
deriving DecidableEq, Repr

/-! ### The random shuffle

random.shuffle of the Python standard library is the Fisher-Yates loop:
for i from len-1 down to 1, draw j uniformly in [0, i] and swap the
entries at i and j. The random stream is modelled as a function rand
giving the draw at step i; taking it modulo i+1 keeps every possible
stream inside the range randbelow would produce. -/

/-- Swap the entries of a list at positions i and j (identity when either
position is out of range). -/
def swapList {α : Type} (l : List α) (i j : Nat) : List α :=
  match l[i]?, l[j]? with
  | some a, some b => (l.set i b).set j a
  | _, _ => l

/-- The Fisher-Yates loop of random.shuffle, counting i down to 1. -/
def fyAux {α : Type} (rand : Nat → Nat) : Nat → List α → List α
  | 0, l => l
  | i + 1, l => fyAux rand i (swapList l (i + 1) (rand (i + 1) % (i + 2)))

/-- random.shuffle as a pure function of the random stream. -/
def fisherYates {α : Type} (rand : Nat → Nat) (l : List α) : List α :=
  fyAux rand (l.length - 1) l

/-- shuffle_options of app.py (lines 83-93), value level: each question is
copied, and when its options list is nonempty the copy gets the shuffled
options. The global random stream is the parameter rng, giving one stream
rng k to the shuffle call of the question at position k. -/
def shuffle_options_go (rng : Nat → Nat → Nat) : Nat → List QuizQuestion → List QuizQuestion
  | _, [] => []
  | k, mcq :: rest =>
    { mcq with
      options := if mcq.options = [] then mcq.options else fisherYates (rng k) mcq.options }
      :: shuffle_options_go rng (k + 1) rest

/-- shuffle_options of app.py: the empty input returns the empty list at
once; otherwise each question is processed in order. -/
def shuffle_options (rng : Nat → Nat → Nat) (mcq_list : List QuizQuestion) : List QuizQuestion :=
  if mcq_list = [] then [] else shuffle_options_go rng 0 mcq_list

/-! ### Permutation facts about the shuffle -/

theorem cons_set_perm {α : Type} (c : α) :
    ∀ (l : List α) (j : Nat) (b : α), l[j]? = some b → List.Perm (b :: l.set j c) (c :: l)
  | [], j, b, h => by simp at h
  | x :: t, 0, b, h => by
    simp only [List.getElem?_cons_zero, Option.some.injEq] at h
    subst h
    simpa using List.Perm.swap c x t
  | x :: t, j + 1, b, h => by
    have ih := cons_set_perm c t j b (by simpa using h)
    have h1 : List.Perm (b :: x :: t.set j c) (x :: b :: t.set j c) := List.Perm.swap x b _
    have h2 : List.Perm (x :: b :: t.set j c) (x :: c :: t) := List.Perm.cons x ih
    have h3 : List.Perm (x :: c :: t) (c :: x :: t) := List.Perm.swap c x t
    simpa using (h1.trans h2).trans h3

theorem set_set_perm {α : Type} :
    ∀ (l : List α) (i j : Nat) (a b : α), l[i]? = some a → l[j]? = some b →
      List.Perm ((l.set i b).set j a) l
  | [], i, j, a, b, h1, _ => by simp at h1
  | x :: t, 0, 0, a, b, h1, h2 => by
    simp only [List.getElem?_cons_zero, Option.some.injEq] at h1 h2
    subst h1; subst h2
    simp
  | x :: t, 0, j + 1, a, b, h1, h2 => by
    simp only [List.getElem?_cons_zero, Option.some.injEq] at h1
    subst h1
    have h2' : t[j]? = some b := by simpa using h2
    simpa using cons_set_perm x t j b h2'
  | x :: t, i + 1, 0, a, b, h1, h2 => by
    simp only [List.getElem?_cons_zero, Option.some.injEq] at h2
    subst h2
    have h1' : t[i]? = some a := by simpa using h1
    simpa using cons_set_perm x t i a h1'
  | x :: t, i + 1, j + 1, a, b, h1, h2 => by
    have ih := set_set_perm t i j a b (by simpa using h1) (by simpa using h2)
    simpa using List.Perm.cons x ih

theorem swapList_perm {α : Type} (l : List α) (i j : Nat) : List.Perm (swapList l i j) l := by
  unfold swapList
  cases h1 : l[i]? with
  | none => exact List.Perm.refl l
  | some a =>
    cases h2 : l[j]? with
    | none => exact List.Perm.refl l
    | some b => exact set_set_perm l i j a b h1 h2

theorem fyAux_perm {α : Type} (rand : Nat → Nat) :
    ∀ (n : Nat) (l : List α), List.Perm (fyAux rand n l) l
  | 0, l => List.Perm.refl l
  | n + 1, l =>
    (fyAux_perm rand n (swapList l (n + 1) (rand (n + 1) % (n + 2)))).trans
      (swapList_perm l (n + 1) (rand (n + 1) % (n + 2)))

theorem fisherYates_perm {α : Type} (rand : Nat → Nat) (l : List α) :
    List.Perm (fisherYates rand l) l :=
  fyAux_perm rand (l.length - 1) l

theorem shuffle_options_go_spec (rng : Nat → Nat → Nat) :
    ∀ (k : Nat) (mcq_list : List QuizQuestion),
      List.Forall₂ (fun mcq res =>
        res.question = mcq.question ∧ List.Perm res.options mcq.options ∧
        res.news_context = mcq.news_context ∧ res.tags = mcq.tags ∧
        res.metadata = mcq.metadata)
        mcq_list (shuffle_options_go rng k mcq_list)
  | _, [] => List.Forall₂.nil
  | k, mcq :: rest => by
    refine List.Forall₂.cons ?_ (shuffle_options_go_spec rng (k + 1) rest)
    refine ⟨rfl, ?_, rfl, rfl, rfl⟩
    by_cases h : mcq.options = []
    · simp [h]
    · simp only [h, if_false]
      exact fisherYates_perm (rng k) mcq.options

/-- C1: for every random stream and every input list, shuffle_options
returns a list of the same length, and pointwise each output question keeps
the question text, news_context, tags and metadata of its input question
while its options are a permutation (the same multiset) of the input
options. -/
theorem shuffle_options_preserves (rng : Nat → Nat → Nat) (mcq_list : List QuizQuestion) :
    (shuffle_options rng mcq_list).length = mcq_list.length ∧
    List.Forall₂ (fun mcq res =>
      res.question = mcq.question ∧ List.Perm res.options mcq.options ∧
      res.news_context = mcq.news_context ∧ res.tags = mcq.tags ∧
      res.metadata = mcq.metadata)
      mcq_list (shuffle_options rng mcq_list) := by
  unfold shuffle_options
  by_cases h : mcq_list = []
  · subst h
    exact ⟨rfl, List.Forall₂.nil⟩
  · simp only [h, if_false]
    have hf := shuffle_options_go_spec rng 0 mcq_list
    exact ⟨(List.Forall₂.length_eq hf).symm, hf⟩

/-! ### Reference-level model of shuffle_options

model_copy of pydantic is a shallow copy: the copy is a fresh record whose
field values are those of the original, so the copied question and the
original question hold the same options list object. random.shuffle then
reorders that shared list in place. To express this, option lists live in
an explicit heap of cells addressed by natural numbers, and a question
object holds a reference into that heap. -/

/-- The heap of Python list objects holding the option lists. -/
structure Heap where
  cells : Nat → List Quiz.Option

/-- Write the cell at address r. -/
def Heap.update (h : Heap) (r : Nat) (v : List Quiz.Option) : Heap :=
  ⟨fun s => if s = r then v else h.cells s⟩

/-- A QuizQuestion object at reference level: the options field is a
reference to a heap cell; the other fields are immutable values. -/
structure QuizQuestionObj where
  question : String
  optionsRef : Nat
  news_context : String
  tags : List String
  metadata : List (String × String)
deriving DecidableEq, Repr

/-- shuffle_options at reference level. The shallow model_copy yields an
object with the same field values, options reference included; the guard
reads the shared cell through that reference, and the in-place
random.shuffle rewrites the cell with the shuffled list. -/
def shuffle_options_obj_go (rng : Nat → Nat → Nat) :
    Nat → List QuizQuestionObj → Heap → List QuizQuestionObj × Heap
  | _, [], h => ([], h)
  | k, mcq :: rest, h =>
    let mcq_copy := mcq
    let opts := h.cells mcq_copy.optionsRef
    let h' := if opts = [] then h
              else h.update mcq_copy.optionsRef (fisherYates (rng k) opts)
    let r := shuffle_options_obj_go rng (k + 1) rest h'
    (mcq_copy :: r.1, r.2)

/-- shuffle_options at reference level (lines 83-93 of app.py): the empty
input returns the empty list with the heap untouched. -/
def shuffle_options_obj (rng : Nat → Nat → Nat) (mcq_list : List QuizQuestionObj) (h : Heap) :
    List QuizQuestionObj × Heap :=
  if mcq_list = [] then ([], h) else shuffle_options_obj_go rng 0 mcq_list h

/-- C2 counterexample: a single question whose options cell holds two
options, with the random draw picking j = 0 at step i = 1, leaves the
input question reading a reordered options list after the call: the cell
its options reference points to has changed, so the input is not exactly
as it was before the call. -/
theorem shuffle_options_mutates_input :
    ((shuffle_options_obj (fun _ _ => 0)
        [{ question := "q", optionsRef := 0, news_context := "", tags := [], metadata := [] }]
        ⟨fun _ => [{ text := "a", correct := true }, { text := "b", correct := false }]⟩).2.cells 0
      ≠ [{ text := "a", correct := true }, { text := "b", correct := false }]) := by
  decide

theorem shuffle_options_obj_go_frame (rng : Nat → Nat → Nat) :
    ∀ (k : Nat) (mcq_list : List QuizQuestionObj) (h : Heap),
      (shuffle_options_obj_go rng k mcq_list h).1 = mcq_list ∧
      ∀ r, List.Perm ((shuffle_options_obj_go rng k mcq_list h).2.cells r) (h.cells r)
  | _, [], h => ⟨rfl, fun _ => List.Perm.refl _⟩
  | k, mcq :: rest, h => by
    have heq : shuffle_options_obj_go rng k (mcq :: rest) h =
        (mcq :: (shuffle_options_obj_go rng (k + 1) rest
            (if h.cells mcq.optionsRef = [] then h
             else h.update mcq.optionsRef (fisherYates (rng k) (h.cells mcq.optionsRef)))).1,
         (shuffle_options_obj_go rng (k + 1) rest
            (if h.cells mcq.optionsRef = [] then h
             else h.update mcq.optionsRef (fisherYates (rng k) (h.cells mcq.optionsRef)))).2) := rfl
    rw [heq]
    set h1 := (if h.cells mcq.optionsRef = [] then h
               else h.update mcq.optionsRef (fisherYates (rng k) (h.cells mcq.optionsRef))) with hh1
    have hperm : ∀ r, List.Perm (h1.cells r) (h.cells r) := by
      intro r
      rw [hh1]
      by_cases hopt : h.cells mcq.optionsRef = []
      · rw [if_pos hopt]
      · rw [if_neg hopt]
        by_cases hr : r = mcq.optionsRef
        · rw [hr]
          simpa [Heap.update] using fisherYates_perm (rng k) (h.cells mcq.optionsRef)
        · simp [Heap.update, hr]
    have ih := shuffle_options_obj_go_frame rng (k + 1) rest h1
    exact ⟨by rw [ih.1], fun r => (ih.2 r).trans (hperm r)⟩

/-- C2 amended: shuffle_options returns the copies in input order with all
field values unchanged, the options reference of each copy included (the
copy is shallow), and every heap cell ends holding a permutation of its
prior contents; by the counterexample the permutation can reorder the
cell an input question points to, so the input objects are preserved but
the order of an input question options list is not. -/
theorem shuffle_options_obj_frame (rng : Nat → Nat → Nat)
    (mcq_list : List QuizQuestionObj) (h : Heap) :
    (shuffle_options_obj rng mcq_list h).1 = mcq_list ∧
    ∀ r, List.Perm ((shuffle_options_obj rng mcq_list h).2.cells r) (h.cells r) := by
  unfold shuffle_options_obj
  by_cases hm : mcq_list = []
  · subst hm
    exact ⟨by simp, by simp [List.Perm.refl]⟩
  · simp only [hm, if_false]
    exact shuffle_options_obj_go_frame rng 0 mcq_list h

/-! ### push_to_db

The remote table is an oracle db giving the outcome of the insert call for
the row at position k: success, a response carrying an error field (the
code reports it and continues the loop), or a raised exception (caught by
the except handler wrapped around the whole loop, which therefore stops).
create_client can also raise; the flag createOk covers that. -/

/-- Outcome of one insert call against the remote table. -/
inductive InsertOutcome
  | ok
  | softError (msg : String)
  | raised (msg : String)
deriving DecidableEq, Repr

/-- What a run of push_to_db did: the rows passed to insert, in order, and
the error messages shown. -/
structure PushResult where
  attempted : List QuizQuestion
  errors : List String
deriving DecidableEq, Repr

/-- The insert loop of push_to_db (lines 105-111): each row is the question
dict with its metadata replaced by the single-entry source mapping; a
response error is reported and the loop continues; a raised exception
falls to the outer except handler, ending the loop. -/
def insertRows (db : Nat → InsertOutcome) (content_source : String) :
    Nat → List QuizQuestion → PushResult
  | _, [] => ⟨[], []⟩
  | k, q :: rest =>
    let row := { q with metadata := [("source", content_source)] }
    match db k with
    | .raised m => ⟨[row], ["Failed to insert questions: " ++ m]⟩
    | .ok =>
      let r := insertRows db content_source (k + 1) rest
      ⟨row :: r.attempted, r.errors⟩
    | .softError m =>
      let r := insertRows db content_source (k + 1) rest
      ⟨row :: r.attempted, ("Database error: " ++ m) :: r.errors⟩

/-- push_to_db of app.py (lines 96-113): guard on the truthiness of the
url, the key and the questions list; create the client; shuffle; insert
row by row inside one try block. -/
def push_to_db (rng : Nat → Nat → Nat) (db : Nat → InsertOutcome) (createOk : Bool)
    (questions : QuizQuestionList) (supabase_url supabase_key content_source : String) :
    PushResult :=
  if supabase_url = "" ∨ supabase_key = "" ∨ questions.questions = [] then
    ⟨[], ["Missing required parameters for database push"]⟩
  else if createOk then
    insertRows db content_source 0 (shuffle_options rng questions.questions)
  else
    ⟨[], ["Failed to insert questions: create_client raised"]⟩

/-! ### generate_quiz

The remote model call and the parse of its response (chain.invoke) are one
oracle value llm: either the parsed QuizQuestionList or the message of the
exception the call raised. -/

/-- generate_quiz of app.py (lines 116-198): guard on the truthiness of
content, num_questions and the api key; invoke the chain; any raised
failure is caught and replaced by the empty QuizQuestionList together with
an error message. The first component is the returned value, the second
the error messages shown. -/
def generate_quiz (llm : Except String QuizQuestionList) (content : String)
    (num_questions : Nat) (openai_api_key : String) : QuizQuestionList × List String :=
  if content = "" ∨ num_questions = 0 ∨ openai_api_key = "" then
    (⟨[]⟩, ["Missing required parameters for quiz generation"])
  else
    match llm with
    | .ok qs => (qs, [])
    | .error e => (⟨[]⟩, ["Error generating quiz: " ++ e])

/-! ### Network call configuration -/

/-- The keyword arguments of the requests.get call of scrape_news
(line 47). -/
structure HTTPRequestConfig where
  url : String
  user_agent : String
  timeout : Option Nat
deriving DecidableEq, Repr

/-- The request scrape_news issues for a url: browser-like user agent and a
ten second timeout. -/
def scrape_news_request (url : String) : HTTPRequestConfig :=
  { url := url
    user_agent := "Mozilla/5.0 (Windows NT 10.0; Win64; x64) AppleWebKit/537.36 (KHTML, like Gecko) Chrome/91.0.4472.124 Safari/537.36"
    timeout := some 10 }

/-- The keyword arguments of the ChatOpenAI construction in generate_quiz
(lines 122-126). The temperature literal 0.7 is kept as the rational
seven tenths. -/
structure ChatModelConfig where
  model : String
  temperature : ℚ
  api_key : String
  timeout : Option Nat
deriving DecidableEq, Repr

/-- The model client generate_quiz constructs: gpt-4o at temperature 0.7,
with no timeout argument. -/
def generate_quiz_llm (openai_api_key : String) : ChatModelConfig :=
  { model := "gpt-4o"
    temperature := (7 : ℚ) / 10
    api_key := openai_api_key
    timeout := none }

/-! ### scrape_news

The network fetch and HTML walk (lines 44-71) only fill news_list; that
collection is the parameter here. The local logic verified is the
deduplication by title and the cap at ten items (lines 73-80). -/

/-- A scraped news item (the dict built at lines 63-67). -/
structure NewsItem where
  title : String
  description : String
  date : String
deriving DecidableEq, Repr

/-- The dedup loop of scrape_news: seen_titles is the set of titles already
kept, modelled as the list of those titles. -/
def dedupByTitle : List String → List NewsItem → List NewsItem
  | _, [] => []
  | seen, news :: rest =>
    if news.title ∈ seen then dedupByTitle seen rest
    else news :: dedupByTitle (news.title :: seen) rest

/-- scrape_news of app.py on an already collected news_list: deduplicate by
exact title, first seen kept, then truncate to the first ten. -/
def scrape_news (news_list : List NewsItem) : List NewsItem :=
  (dedupByTitle [] news_list).take 10

theorem mem_dedupByTitle_not_seen :
    ∀ (seen : List String) (l : List NewsItem) (x : NewsItem),
      x ∈ dedupByTitle seen l → x.title ∉ seen
  | _, [], x, hx => by simp [dedupByTitle] at hx
  | seen, news :: rest, x, hx => by
    by_cases h : news.title ∈ seen
    · rw [dedupByTitle, if_pos h] at hx
      exact mem_dedupByTitle_not_seen seen rest x hx
    · rw [dedupByTitle, if_neg h] at hx
      rcases List.mem_cons.1 hx with rfl | hx'
      · exact h
      · have := mem_dedupByTitle_not_seen (news.title :: seen) rest x hx'
        exact fun hs => this (List.mem_cons_of_mem _ hs)

theorem dedupByTitle_pairwise :
    ∀ (seen : List String) (l : List NewsItem),
      (dedupByTitle seen l).Pairwise (fun a b => a.title ≠ b.title)
  | _, [] => List.Pairwise.nil
  | seen, news :: rest => by
    by_cases h : news.title ∈ seen
    · rw [dedupByTitle, if_pos h]
      exact dedupByTitle_pairwise seen rest
    · rw [dedupByTitle, if_neg h]
      refine List.Pairwise.cons ?_ (dedupByTitle_pairwise (news.title :: seen) rest)
      intro y hy hne
      exact mem_dedupByTitle_not_seen (news.title :: seen) rest y hy
        (hne ▸ List.mem_cons_self _ _)

theorem dedupByTitle_sublist :
    ∀ (seen : List String) (l : List NewsItem), (dedupByTitle seen l).Sublist l
  | _, [] => List.Sublist.refl []
  | seen, news :: rest => by
    by_cases h : news.title ∈ seen
    · rw [dedupByTitle, if_pos h]
      exact (dedupByTitle_sublist seen rest).cons news
    · rw [dedupByTitle, if_neg h]
      exact (dedupByTitle_sublist (news.title :: seen) rest).cons₂ news

theorem dedupByTitle_first_seen :
    ∀ (seen : List String) (l : List NewsItem) (x : NewsItem),
      x ∈ dedupByTitle seen l → l.find? (fun y => y.title == x.title) = some x
  | _, [], x, hx => by simp [dedupByTitle] at hx
  | seen, news :: rest, x, hx => by
    by_cases h : news.title ∈ seen
    · rw [dedupByTitle, if_pos h] at hx
      have hns : x.title ∉ seen := mem_dedupByTitle_not_seen seen rest x hx
      have hne : news.title ≠ x.title := fun he => hns (he ▸ h)
      rw [List.find?_cons_of_neg _ (by simpa using hne)]
      exact dedupByTitle_first_seen seen rest x hx
    · rw [dedupByTitle, if_neg h] at hx
      rcases List.mem_cons.1 hx with rfl | hx'
      · exact List.find?_cons_of_pos _ (by simp)
      · have hns : x.title ∉ news.title :: seen :=
          mem_dedupByTitle_not_seen (news.title :: seen) rest x hx'
        have hne : news.title ≠ x.title := fun he => hns (he ▸ List.mem_cons_self _ _)
        rw [List.find?_cons_of_neg _ (by simpa using hne)]
        exact dedupByTitle_first_seen (news.title :: seen) rest x hx'

/-- C5: for every collected item list, the list scrape_news returns has at
most ten items, no two of its items share a title, it is a sublist of the
input (so kept items appear in first-seen order), and every kept item is
the first item of the input carrying its title. -/
theorem scrape_news_spec (news_list : List NewsItem) :
    (scrape_news news_list).length ≤ 10 ∧
    (scrape_news news_list).Pairwise (fun a b => a.title ≠ b.title) ∧
    (scrape_news news_list).Sublist news_list ∧
    ∀ x ∈ scrape_news news_list, news_list.find? (fun y => y.title == x.title) = some x := by
  refine ⟨List.length_take_le 10 _, ?_, ?_, ?_⟩
  · exact (dedupByTitle_pairwise [] news_list).sublist (List.take_sublist 10 _)
  · exact (List.take_sublist 10 _).trans (dedupByTitle_sublist [] news_list)
  · intro x hx
    exact dedupByTitle_first_seen [] news_list x
      ((List.take_sublist 10 _).mem hx)

/-! ### Snapshot persistence

pickle.dump and pickle.load are modelled by a concrete token serializer
with the contract pickle provides for these records: dumping an object and
loading the bytes back yields an equal object. save_questions writes the
serialized form to the single snapshot path, overwriting whatever was
there; load_questions returns nothing when the file is absent or its
contents fail to parse. -/

/-- A token of the serialized snapshot. -/
inductive Tok
  | s (v : String)
  | b (v : Bool)
  | n (v : Nat)
deriving DecidableEq, Repr

/-- Serialize one option. -/
def encodeOption (o : Quiz.Option) : List Tok := [.s o.text, .b o.correct]

/-- Serialize one tag. -/
def encodeTag (t : String) : List Tok := [.s t]

/-- Serialize one metadata entry. -/
def encodePair (p : String × String) : List Tok := [.s p.1, .s p.2]

/-- Serialize one question: each variable-length field is preceded by its
length. -/
def encodeQuestion (q : QuizQuestion) : List Tok :=
  .s q.question :: .n q.options.length :: (q.options.flatMap encodeOption ++
    (.s q.news_context :: .n q.tags.length :: (q.tags.flatMap encodeTag ++
      (.n q.metadata.length :: q.metadata.flatMap encodePair))))

/-- Serialize a QuizQuestionList. -/
def pickleDump (ql : QuizQuestionList) : List Tok :=
  .n ql.questions.length :: ql.questions.flatMap encodeQuestion

/-- Parse one option. -/
def decodeOption : List Tok → Option (Quiz.Option × List Tok)
  | .s t :: .b c :: rest => some (⟨t, c⟩, rest)
  | _ => none

/-- Parse one tag. -/
def decodeStr : List Tok → Option (String × List Tok)
  | .s t :: rest => some (t, rest)
  | _ => none

/-- Parse one metadata entry. -/
def decodePair : List Tok → Option ((String × String) × List Tok)
  | .s a :: .s b :: rest => some ((a, b), rest)
  | _ => none

/-- Parse a counted sequence of items. -/
def decodeMany {α : Type} (dec : List Tok → Option (α × List Tok)) :
    Nat → List Tok → Option (List α × List Tok)
  | 0, ts => some ([], ts)
  | n + 1, ts =>
    match dec ts with
    | some (a, ts1) =>
      match decodeMany dec n ts1 with
      | some (as, ts2) => some (a :: as, ts2)
      | none => none
    | none => none

/-- Parse the trailing metadata of a question. -/
def decodeQuestionMeta (q : String) (opts : List Quiz.Option) (ctx : String)
    (tags : List String) : List Tok → Option (QuizQuestion × List Tok)
  | .n nmeta :: ts =>
    match decodeMany decodePair nmeta ts with
    | some (meta, ts2) => some (⟨q, opts, ctx, tags, meta⟩, ts2)
    | none => none
  | _ => none

/-- Parse the context and tags of a question, then its metadata. -/
def decodeQuestionCtx (q : String) (opts : List Quiz.Option) :
    List Tok → Option (QuizQuestion × List Tok)
  | .s ctx :: .n ntag :: ts =>
    match decodeMany decodeStr ntag ts with
    | some (tags, ts2) => decodeQuestionMeta q opts ctx tags ts2
    | none => none
  | _ => none

/-- Parse one question. -/
def decodeQuestion : List Tok → Option (QuizQuestion × List Tok)
  | .s q :: .n nopt :: ts =>
    match decodeMany decodeOption nopt ts with
    | some (opts, ts2) => decodeQuestionCtx q opts ts2
    | none => none
  | _ => none

/-- Parse a QuizQuestionList from a snapshot. -/
def pickleLoad (ts : List Tok) : Option QuizQuestionList :=
  match ts with
  | .n nq :: ts1 =>
    match decodeMany decodeQuestion nq ts1 with
    | some (qs, _) => some ⟨qs⟩
    | none => none
  | _ => none

theorem decodeMany_encode {α : Type} (dec : List Tok → Option (α × List Tok))
    (enc : α → List Tok) (hdec : ∀ a rest, dec (enc a ++ rest) = some (a, rest)) :
    ∀ (l : List α) (rest : List Tok),
      decodeMany dec l.length (l.flatMap enc ++ rest) = some (l, rest)
  | [], rest => by simp [decodeMany]
  | a :: l, rest => by
    have hrec := decodeMany_encode dec enc hdec l rest
    simp only [List.length_cons, List.flatMap_cons, List.append_assoc, decodeMany]
    rw [hdec a (l.flatMap enc ++ rest)]
    simp only [hrec]

theorem decodeQuestionMeta_encode (q : String) (opts : List Quiz.Option) (ctx : String)
    (tags : List String) (meta : List (String × String)) (rest : List Tok) :
    decodeQuestionMeta q opts ctx tags (.n meta.length :: (meta.flatMap encodePair ++ rest))
      = some (⟨q, opts, ctx, tags, meta⟩, rest) := by
  simp only [decodeQuestionMeta]
  rw [decodeMany_encode decodePair encodePair (fun a r => rfl) meta rest]

theorem decodeQuestionCtx_encode (q : String) (opts : List Quiz.Option) (ctx : String)
    (tags : List String) (meta : List (String × String)) (rest : List Tok) :
    decodeQuestionCtx q opts (.s ctx :: .n tags.length :: (tags.flatMap encodeTag ++
        (.n meta.length :: (meta.flatMap encodePair ++ rest))))
      = some (⟨q, opts, ctx, tags, meta⟩, rest) := by
  simp only [decodeQuestionCtx]
  rw [decodeMany_encode decodeStr encodeTag (fun a r => rfl) tags _]
  exact decodeQuestionMeta_encode q opts ctx tags meta rest

theorem decodeQuestion_encode : ∀ (q : QuizQuestion) (rest : List Tok),
    decodeQuestion (encodeQuestion q ++ rest) = some (q, rest)
  | ⟨qq, opts, ctx, tags, meta⟩, rest => by
    simp only [encodeQuestion, List.cons_append, List.append_assoc]
    simp only [decodeQuestion]
    rw [decodeMany_encode decodeOption encodeOption (fun a r => rfl) opts _]
    exact decodeQuestionCtx_encode qq opts ctx tags meta rest

theorem pickleLoad_dump : ∀ ql : QuizQuestionList, pickleLoad (pickleDump ql) = some ql
  | ⟨qs⟩ => by
    simp only [pickleDump, pickleLoad]
    have h := decodeMany_encode decodeQuestion encodeQuestion decodeQuestion_encode qs []
    rw [List.append_nil] at h
    rw [h]

/-- The snapshot file at the single well-known path. -/
inductive FileState
  | absent
  | stored (content : List Tok)
  | corrupt
deriving Repr

/-- save_questions of app.py (lines 201-206): serialize and overwrite the
snapshot (the successful write path; a raised write failure is caught and
only reported). -/
def save_questions (questions : QuizQuestionList) (_fs : FileState) : FileState :=
  .stored (pickleDump questions)

/-- load_questions of app.py (lines 209-216): nothing when the file does
not exist, nothing when unpickling raises, else the parsed value. -/
def load_questions : FileState → Option QuizQuestionList
  | .absent => none
  | .corrupt => none
  | .stored c => pickleLoad c

/-- C4: writing a QuizQuestionList over any prior snapshot and reading the
path back returns exactly the written structure, all fields included. -/
theorem save_load_roundtrip (questions : QuizQuestionList) (fs : FileState) :
    load_questions (save_questions questions fs) = some questions := by
  simp only [save_questions, load_questions]
  exact pickleLoad_dump questions

/-! ### The main guard -/

/-- What main does before offering any action. -/
inductive MainOutcome
  | configError (msg : String)
  | ready (openai_api_key supabase_url supabase_key : String)
deriving DecidableEq, Repr

/-- Python truthiness of an os.getenv result: an absent variable is None
and falsy, the empty string is falsy. -/
def truthyEnv : Option String → Bool
  | none => false
  | some s => s != ""

namespace App

/-- The configuration guard of main (lines 223-229): the three credentials
are read from the environment and if any is missing every action is
withheld behind one error message. -/
def main (env : String → Option String) : MainOutcome :=
  let openai_api_key := env "OPENAI_API_KEY"
  let supabase_url := env "SUPABASE_URL"
  let supabase_key := env "SUPABASE_KEY"
  if truthyEnv openai_api_key && truthyEnv supabase_url && truthyEnv supabase_key then
    .ready (openai_api_key.getD "") (supabase_url.getD "") (supabase_key.getD "")
  else
    .configError "Missing configuration. Please ensure .env file contains OPENAI_API_KEY, SUPABASE_URL, and SUPABASE_KEY."

end App

/-- C9: when any of the three credentials is absent from the environment,
main stops before any action with the single configuration message. -/
theorem main_missing_config (env : String → Option String)
    (h : env "OPENAI_API_KEY" = none ∨ env "SUPABASE_URL" = none ∨
      env "SUPABASE_KEY" = none) :
    App.main env = .configError "Missing configuration. Please ensure .env file contains OPENAI_API_KEY, SUPABASE_URL, and SUPABASE_KEY." := by
  unfold App.main
  rcases h with h | h | h <;> simp [h, truthyEnv]

/-- C9 witness: the empty environment is rejected with the configuration
message. -/
theorem main_missing_config_witness :
    App.main (fun _ => none) = .configError "Missing configuration. Please ensure .env file contains OPENAI_API_KEY, SUPABASE_URL, and SUPABASE_KEY." :=
  main_missing_config (fun _ => none) (Or.inl rfl)

/-! ### Facts about the insert loop -/

theorem insertRows_metadata (db : Nat → InsertOutcome) (src : String) :
    ∀ (k : Nat) (rows : List QuizQuestion) (row : QuizQuestion),
      row ∈ (insertRows db src k rows).attempted → row.metadata = [("source", src)]
  | _, [], row, h => by simp [insertRows] at h
  | k, q :: rest, row, h => by
    cases hdb : db k with
    | raised m =>
      simp only [insertRows, hdb] at h
      simp only [List.mem_singleton] at h
      rw [h]
    | ok =>
      simp only [insertRows, hdb] at h
      rcases List.mem_cons.1 h with rfl | h'
      · rfl
      · exact insertRows_metadata db src (k + 1) rest row h'
    | softError m =>
      simp only [insertRows, hdb] at h
      rcases List.mem_cons.1 h with rfl | h'
      · rfl
      · exact insertRows_metadata db src (k + 1) rest row h'

theorem insertRows_length_no_raise (db : Nat → InsertOutcome) (src : String) :
    ∀ (k : Nat) (rows : List QuizQuestion),
      (∀ i m, db (k + i) ≠ .raised m) →
      (insertRows db src k rows).attempted.length = rows.length
  | _, [], _ => by simp [insertRows]
  | k, q :: rest, h => by
    have hshift : ∀ i m, db (k + 1 + i) ≠ .raised m := fun i m => by
      have := h (i + 1) m
      rwa [show k + (i + 1) = k + 1 + i by omega] at this
    have ih := insertRows_length_no_raise db src (k + 1) rest hshift
    cases hdb : db k with
    | raised m => exact absurd hdb (by simpa using h 0 m)
    | ok => simp [insertRows, hdb, ih]
    | softError m => simp [insertRows, hdb, ih]

theorem insertRows_softError_reported (db : Nat → InsertOutcome) (src : String) :
    ∀ (k : Nat) (rows : List QuizQuestion) (i : Nat) (m : String),
      (∀ j mm, db (k + j) ≠ .raised mm) →
      i < rows.length → db (k + i) = .softError m →
      ("Database error: " ++ m) ∈ (insertRows db src k rows).errors
  | _, [], i, m, _, hi, _ => by simp at hi
  | k, q :: rest, 0, m, _, _, hdb => by
    have hdbk : db k = .softError m := by simpa using hdb
    simp [insertRows, hdbk]
  | k, q :: rest, i + 1, m, hnr, hi, hdb => by
    have hshift : ∀ j mm, db (k + 1 + j) ≠ .raised mm := fun j mm => by
      have := hnr (j + 1) mm
      rwa [show k + (j + 1) = k + 1 + j by omega] at this
    have hdb' : db (k + 1 + i) = .softError m := by
      rwa [show k + (i + 1) = k + 1 + i by omega] at hdb
    have ih := insertRows_softError_reported db src (k + 1) rest i m hshift
      (by simpa using hi) hdb'
    cases hcase : db k with
    | raised mm => exact absurd hcase (by simpa using hnr 0 mm)
    | ok => simpa [insertRows, hcase] using ih
    | softError mm =>
      simp only [insertRows, hcase]
      exact List.mem_cons_of_mem _ ih

theorem insertRows_singleton (db : Nat → InsertOutcome) (src : String) (k : Nat)
    (q : QuizQuestion) :
    (insertRows db src k [q]).attempted.length = 1 := by
  cases hdb : db k <;> simp [insertRows, hdb]

theorem shuffle_options_length (rng : Nat → Nat → Nat) (l : List QuizQuestion) :
    (shuffle_options rng l).length = l.length := by
  unfold shuffle_options
  by_cases h : l = []
  · simp [h]
  · simp only [h, if_false]
    exact (List.Forall₂.length_eq (shuffle_options_go_spec rng 0 l)).symm

/-! ### Concrete sample data -/

/-- A sample correct option. -/
def optA : Quiz.Option := ⟨"a", true⟩

/-- A sample wrong option. -/
def optB : Quiz.Option := ⟨"b", false⟩

/-- A sample question with two options and prior metadata. -/
def qA : QuizQuestion := ⟨"Q1", [optA, optB], "ctx", ["tag"], [("difficulty", "hard")]⟩

/-- A sample question with no options. -/
def qB : QuizQuestion := ⟨"Q2", [], "", [], []⟩

/-- The row the sample push of qA inserts: options reordered by the
all-zero random stream, metadata replaced by the source stamp. -/
def rowA : QuizQuestion := ⟨"Q1", [optB, optA], "ctx", ["tag"], [("source", "Custom Text")]⟩

/-- C3 counterexample: two questions are pushed and the insert of the
first raises; the error is reported, yet only one insert is ever
attempted, so the remaining insert is not attempted and the claim fails
on this input. -/
theorem push_to_db_raise_aborts :
    ((push_to_db (fun _ _ => 0) (fun k => if k = 0 then InsertOutcome.raised "boom" else InsertOutcome.ok)
        true ⟨[qA, qB]⟩ "u" "k" "s").errors ≠ []) ∧
    ¬ ((push_to_db (fun _ _ => 0) (fun k => if k = 0 then InsertOutcome.raised "boom" else InsertOutcome.ok)
        true ⟨[qA, qB]⟩ "u" "k" "s").attempted.length = 2) := by
  decide

/-- C3 amended: when no insert call raises, every question is attempted
regardless of per-row response errors, and each response error is
reported; an insert that raises is caught by the handler around the whole
loop, so the inserts after it are not attempted (shown by the
counterexample). -/
theorem push_to_db_no_raise_attempts_all (rng : Nat → Nat → Nat) (db : Nat → InsertOutcome)
    (questions : QuizQuestionList) (url key src : String)
    (h1 : url ≠ "") (h2 : key ≠ "") (h3 : questions.questions ≠ [])
    (hnr : ∀ k m, db k ≠ .raised m) :
    (push_to_db rng db true questions url key src).attempted.length
        = questions.questions.length ∧
    ∀ i m, i < questions.questions.length → db i = .softError m →
      ("Database error: " ++ m) ∈ (push_to_db rng db true questions url key src).errors := by
  have hguard : ¬ (url = "" ∨ key = "" ∨ questions.questions = []) := by
    simp [h1, h2, h3]
  unfold push_to_db
  rw [if_neg hguard, if_pos rfl]
  constructor
  · rw [insertRows_length_no_raise db src 0 _ (fun i m => by simpa using hnr i m)]
    exact shuffle_options_length rng questions.questions
  · intro i m hi hdb
    refine insertRows_softError_reported db src 0 _ i m
      (fun j mm => by simpa using hnr j mm) ?_ (by simpa using hdb)
    rw [shuffle_options_length]
    exact hi

/-- C3 amended witness: both inserts answer with a response error; both
rows are still attempted and the error is reported. -/
theorem push_to_db_no_raise_attempts_all_witness :
    (push_to_db (fun _ _ => 0) (fun _ => InsertOutcome.softError "E") true
        ⟨[qA, qB]⟩ "u" "k" "s").attempted.length = 2 ∧
    ("Database error: " ++ "E") ∈ (push_to_db (fun _ _ => 0) (fun _ => InsertOutcome.softError "E") true
        ⟨[qA, qB]⟩ "u" "k" "s").errors := by
  have h := push_to_db_no_raise_attempts_all (fun _ _ => 0)
    (fun _ => InsertOutcome.softError "E") ⟨[qA, qB]⟩ "u" "k" "s"
    (by decide) (by decide) (by decide) (fun k m hh => by cases hh)
  exact ⟨h.1, h.2 0 "E" (by decide) rfl⟩

/-- C6: whatever the inputs, when the model invocation or the parse of its
response fails, generate_quiz catches the failure and returns the
QuizQuestionList with the empty questions list, not a raised error and not
a partial result. -/
theorem generate_quiz_failure_empty (content : String) (num_questions : Nat)
    (openai_api_key : String) (e : String) :
    (generate_quiz (Except.error e) content num_questions openai_api_key).1
      = ⟨[]⟩ := by
  unfold generate_quiz
  split
  · rfl
  · rfl

/-- C7 counterexample: it is false that neither network call is configured
with a timeout, since the requests.get of scrape_news passes a ten second
timeout. -/
theorem network_timeout_counterexample :
    ¬ ((scrape_news_request "https://economictimes.indiatimes.com/tech/artificial-intelligence").timeout = none ∧
       (generate_quiz_llm "key").timeout = none) := by
  intro h
  exact Option.noConfusion h.1

/-- C7 amended: the HTTP fetch of scrape_news is configured with a ten
second timeout, while the model invocation of generate_quiz passes no
timeout, so only a hanging model endpoint blocks the interaction
indefinitely. -/
theorem network_timeout_config (url api_key : String) :
    (scrape_news_request url).timeout = some 10 ∧
    (generate_quiz_llm api_key).timeout = none :=
  ⟨rfl, rfl⟩

/-- C8: with valid connection parameters every row push_to_db attempts
carries metadata.source equal to the selected content source label, and a
QuizQuestionList with a single question leads to exactly one attempted row
insert. -/
theorem push_to_db_stamps_source (rng : Nat → Nat → Nat) (db : Nat → InsertOutcome)
    (questions : QuizQuestionList) (url key src : String)
    (h1 : url ≠ "") (h2 : key ≠ "") :
    (∀ row ∈ (push_to_db rng db true questions url key src).attempted,
      row.metadata = [("source", src)]) ∧
    ∀ q : QuizQuestion,
      (push_to_db rng db true ⟨[q]⟩ url key src).attempted.length = 1 := by
  constructor
  · intro row hrow
    unfold push_to_db at hrow
    by_cases hq : questions.questions = []
    · rw [if_pos (by simp [hq])] at hrow
      simp at hrow
    · rw [if_neg (by simp [h1, h2, hq]), if_pos rfl] at hrow
      exact insertRows_metadata db src 0 _ row hrow
  · intro q
    unfold push_to_db
    rw [if_neg (by simp [h1, h2]), if_pos rfl]
    obtain ⟨a, ha⟩ := List.length_eq_one.1
      (shuffle_options_length rng [q] : (shuffle_options rng [q]).length = 1)
    rw [ha]
    exact insertRows_singleton db src 0 a

/-- C8 witness: pushing the single sample question with source label
Custom Text attempts exactly one row, and the sample row is stamped with
that source. -/
theorem push_to_db_stamps_source_witness :
    (push_to_db (fun _ _ => 0) (fun _ => InsertOutcome.ok) true ⟨[qA]⟩ "u" "k" "Custom Text").attempted.length = 1 ∧
    rowA.metadata = [("source", "Custom Text")] := by
  have h := push_to_db_stamps_source (fun _ _ => 0) (fun _ => InsertOutcome.ok)
    ⟨[qA]⟩ "u" "k" "Custom Text" (by decide) (by decide)
  exact ⟨h.2 qA, h.1 rowA (by decide)⟩

/-- C10: every row push_to_db attempts has its metadata mapping replaced
by the single source entry: the source key maps to the label and every
other key, whatever the metadata held before the push, is absent. -/
theorem push_to_db_replaces_metadata (rng : Nat → Nat → Nat) (db : Nat → InsertOutcome)
    (createOk : Bool) (questions : QuizQuestionList) (url key src : String) :
    ∀ row ∈ (push_to_db rng db createOk questions url key src).attempted,
      row.metadata.lookup "source" = some src ∧
      ∀ k, k ≠ "source" → row.metadata.lookup k = none := by
  intro row hrow
  have hmeta : row.metadata = [("source", src)] := by
    unfold push_to_db at hrow
    by_cases hg : url = "" ∨ key = "" ∨ questions.questions = []
    · rw [if_pos hg] at hrow
      simp at hrow
    · rw [if_neg hg] at hrow
      cases createOk with
      | true => exact insertRows_metadata db src 0 _ row (by simpa using hrow)
      | false => simp at hrow
  rw [hmeta]
  refine ⟨by simp [List.lookup], fun k hk => ?_⟩
  have hfalse : (k == "source") = false := beq_eq_false_iff_ne.2 hk
  simp [List.lookup, hfalse]

/-- C10 witness: the sample push of qA, whose metadata held a difficulty
key, yields a row where difficulty is absent and source is the label. -/
theorem push_to_db_replaces_metadata_witness :
    rowA.metadata.lookup "difficulty" = none ∧
    rowA.metadata.lookup "source" = some "Custom Text" := by
  have h := push_to_db_replaces_metadata (fun _ _ => 0) (fun _ => InsertOutcome.ok)
    true ⟨[qA]⟩ "u" "k" "Custom Text" rowA (by decide)
  exact ⟨h.2 "difficulty" (by decide), h.1⟩
